import Mathlib

/-!
# MakeMacRom: the write-once ROM image buffer

A shallow embedding of `RomWriter` and `RomWriteError` (src/MakeMacRom.cpp) and
of `ReverseBits` (src/RomMain.cpp), and theorems about them.

Conventions of the embedding.

* `uint8_t` values are natural numbers; the buffer only copies them.
* `size_t` is a 64-bit unsigned word.  The `size_t` additions of `CheckWrite`,
  `offset + numBytes` in the bounds test and `offset + i` in the error it
  throws, are taken modulo `2 ^ 64`.
* The two `std::vector<uint8_t>` members are lists.  The element
  `(writtenBytes() + offset)[i]` is the list element of index `offset + i`;
  when that index is outside the vector the read has no defined result in
  C++, and the embedding reports it as the separate outcome `undefined`.
* The length of an in-memory byte sequence is taken as it is.
* A C++ exception leaves the object alive, so a thrown outcome carries the
  state of the object at the time of the throw.
* A file is `none` when `fopen` fails.  An opened file is what the calls of
  `WriteFromFile` see of it: the number `ftell` returns after the seek to the
  end, and the bytes a read from the start delivers.  None of `fseek`, `ftell`
  and `fread` is checked by the source, so the two need not agree;
  `regularFile c` is the file for which they do.
* `std::exit(1)` is the outcome `exited 1`: the process ends and no object is
  left to speak of.
* `std::ostringstream` is a record of its number base and of the characters
  written so far; a number is written as `Nat.toDigits` renders it.
-/

namespace MakeMacRom

/-- Number of values of the C++ type `size_t`. -/
def SIZE_T : Nat := 2 ^ 64

/-- The arguments `RomWriteError` is constructed with. -/
structure RomWriteError where
  errorName : String
  errorAt : Nat
  writeStart : Nat
  writeSize : Nat
  deriving DecidableEq

/-- The two vectors of a `RomWriter`. -/
structure RomWriter where
  _data : List Nat
  _writtenBytes : List Nat
  deriving DecidableEq

/-- The constructor `RomWriter(sizeInBytes)`. -/
def RomWriter.new (sizeInBytes : Nat) : RomWriter :=
  { _data := List.replicate sizeInBytes 0x00
    _writtenBytes := List.replicate sizeInBytes 0x00 }

/-- The accessor `size()`. -/
def RomWriter.size (w : RomWriter) : Nat := w._data.length

/-- What a real `RomWriter` object satisfies: both vectors were built with the
same length, and a vector's length is a `size_t`. -/
def RomWriter.WF (w : RomWriter) : Prop :=
  w._writtenBytes.length = w._data.length ∧ w._data.length < SIZE_T

instance (w : RomWriter) : Decidable w.WF := by
  unfold RomWriter.WF; infer_instance

/-- The mask entry of index `i` is nonzero, which is what `CheckWrite` tests. -/
def RomWriter.isWritten (w : RomWriter) (i : Nat) : Bool :=
  match w._writtenBytes[i]? with
  | some m => m != 0
  | none => false

/-- How many mask entries are marked written. -/
def RomWriter.writtenCount (w : RomWriter) : Nat :=
  w._writtenBytes.countP (fun m => m != 0)

/-- Result of the validation `CheckWrite`, which does not modify the object. -/
inductive CheckResult where
  | passed
  | threw (e : RomWriteError)
  | undefined
  deriving DecidableEq

/-- Result of a write operation on a `RomWriter`. -/
inductive Outcome where
  | returned (w : RomWriter)
  | threw (e : RomWriteError) (w : RomWriter)
  | exited (code : Nat)
  | undefined
  deriving DecidableEq

/-- The loop `for (size_t i = 0; i < numBytes; ++i)` of `CheckWrite`; the
first number is the count of iterations still to run, `numBytes - i`. -/
def CheckWrite.scan (w : RomWriter) (offset numBytes : Nat) : Nat → Nat → CheckResult
  | 0, _ => CheckResult.passed
  | n + 1, i =>
    match w._writtenBytes[offset + i]? with
    | none => CheckResult.undefined
    | some m =>
      if m ≠ 0 then
        CheckResult.threw
          (RomWriteError.mk "double-write" ((offset + i) % SIZE_T) offset numBytes)
      else CheckWrite.scan w offset numBytes n (i + 1)

/-- The method `RomWriter::CheckWrite`. -/
def CheckWrite (w : RomWriter) (offset numBytes : Nat) : CheckResult :=
  if (offset + numBytes) % SIZE_T > w.size then
    CheckResult.threw (RomWriteError.mk "write past end of ROM" w.size offset numBytes)
  else CheckWrite.scan w offset numBytes numBytes 0

/-- The call `memcpy(dst + offset, src, len src)`, byte by byte. -/
def memcpy (dst : List Nat) (offset : Nat) : List Nat → List Nat
  | [] => dst
  | b :: bs => memcpy (dst.set offset b) (offset + 1) bs

/-- The call `memset(dst + offset, v, n)`, byte by byte. -/
def memset (dst : List Nat) (offset v : Nat) : Nat → List Nat
  | 0 => dst
  | n + 1 => memset (dst.set offset v) (offset + 1) v n

/-- The method `RomWriter::WriteBytes`. -/
def WriteBytes (w : RomWriter) (offset : Nat) (bytes : List Nat) : Outcome :=
  match CheckWrite w offset bytes.length with
  | CheckResult.passed =>
    Outcome.returned
      { _data := memcpy w._data offset bytes
        _writtenBytes := memset w._writtenBytes offset 1 bytes.length }
  | CheckResult.threw e => Outcome.threw e w
  | CheckResult.undefined => Outcome.undefined

/-- What `WriteFromFile` sees of a file that `fopen` has opened: `tell` is the
`long` that `ftell` returns after `fseek(file, 0, SEEK_END)`, which is -1 when
the file cannot be sought (a pipe) and need not be the number of bytes the file
holds; `readable` is the bytes a read from the start of the file delivers
before it ends or fails. -/
structure OpenFile where
  tell : Int
  readable : List Nat
  deriving DecidableEq

/-- A regular file of contents `contents`: `ftell` at its end is its length and
a read delivers all of it. -/
def regularFile (contents : List Nat) : OpenFile :=
  { tell := contents.length, readable := contents }

/-- The value of `size_t fileSize = ftell(file)`: the `long` converted to
`size_t`, so -1 becomes `2 ^ 64 - 1`. -/
def OpenFile.fileSize (f : OpenFile) : Nat := (f.tell % (SIZE_T : Int)).toNat

/-- The bytes `fread(ptr, fileSize, 1, file)` stores at `ptr`: at most
`fileSize` of them, fewer when the file ends or fails before. -/
def OpenFile.fread (f : OpenFile) (fileSize : Nat) : List Nat := f.readable.take fileSize

/-- The method `RomWriter::WriteFromFile`; the results of `fseek`, `ftell` and
`fread` are used unchecked, `fread` stores what it gets at `data() + offset`,
and the mask is not touched. -/
def WriteFromFile (w : RomWriter) (offset : Nat) (file : Option OpenFile) : Outcome :=
  match file with
  | none => Outcome.exited 1
  | some f =>
    let fileSize := f.fileSize
    match CheckWrite w offset fileSize with
    | CheckResult.passed =>
      Outcome.returned { w with _data := memcpy w._data offset (f.fread fileSize) }
    | CheckResult.threw e => Outcome.threw e w
    | CheckResult.undefined => Outcome.undefined

/-- Statement sequencing: the next statement runs on the object only when the
previous one returned; a throw, an exit or an undefined read ends the block. -/
def Outcome.andThen (o : Outcome) (next : RomWriter → Outcome) : Outcome :=
  match o with
  | Outcome.returned w => next w
  | other => other

/-- The `try` block of `main`: the two writes on a fresh 512 KB buffer. -/
def main (file : Option OpenFile) : Outcome :=
  (WriteBytes (RomWriter.new (1024 * 512)) 0x4 [0x00, 0x40, 0x00, 0x2a]).andThen
    (fun writer => WriteFromFile writer 0x2a file)

/-- One call made by a client of the buffer. -/
inductive Op where
  | writeBytes (offset : Nat) (bytes : List Nat)
  | writeFromFile (offset : Nat) (file : Option OpenFile)
  deriving DecidableEq

/-- Performs one call. -/
def Op.apply (w : RomWriter) : Op → Outcome
  | Op.writeBytes offset bytes => WriteBytes w offset bytes
  | Op.writeFromFile offset file => WriteFromFile w offset file

/-- Performs a sequence of calls, the caller catching each `RomWriteError` and
going on; there is no final state when the process exits or a call has no
defined behaviour. -/
def run (w : RomWriter) : List Op → Option RomWriter
  | [] => some w
  | op :: ops =>
    match op.apply w with
    | Outcome.returned w1 => run w1 ops
    | Outcome.threw _ w1 => run w1 ops
    | Outcome.exited _ => none
    | Outcome.undefined => none

/-- The part of `std::ostringstream` the constructor of `RomWriteError` uses:
the base of the number format (10 at first, 16 after `std::hex`, and it stays
so) and the characters written so far. -/
structure OStringStream where
  base : Nat
  str : String

/-- A freshly constructed `std::ostringstream`. -/
def OStringStream.new : OStringStream := { base := 10, str := "" }

/-- The insertion `os << std::hex`. -/
def OStringStream.hex (os : OStringStream) : OStringStream := { os with base := 16 }

/-- The insertion `os << s` of a C string. -/
def OStringStream.putString (os : OStringStream) (s : String) : OStringStream :=
  { os with str := os.str ++ s }

/-- The insertion `os << n` of a `size_t`: the digits of `n` in the base of the
stream, most significant first, lowercase, with no sign, prefix or padding. -/
def OStringStream.putSize (os : OStringStream) (n : Nat) : OStringStream :=
  { os with str := os.str ++ String.mk (Nat.toDigits os.base n) }

/-- The message the constructor of `RomWriteError` builds, which `what()`
returns. -/
def RomWriteError.what (e : RomWriteError) : String :=
  (((((((((OStringStream.new.hex).putString e.errorName).putString " at 0x").putSize
    e.errorAt).putString ", via 0x").putSize e.writeSize).putString " byte write").putString
    " starting at 0x").putSize e.writeStart).str

/-- The sixteen lowercase hexadecimal digits, in order. -/
def hexDigits : List Char := "0123456789abcdef".toList

/-- A number in lowercase base 16 without leading zeros, "0" for zero: the
base-16 digits of `n` from the most significant one, each as its character. -/
def hexString (n : Nat) : String :=
  if n = 0 then "0"
  else String.mk (((Nat.digits 16 n).reverse).map (fun d => hexDigits.getD d '?'))

/-- The function `ReverseBits` of src/RomMain.cpp; each assignment to the
`uint8_t` variable `b` keeps the low 8 bits. -/
def ReverseBits (b : Nat) : Nat :=
  let b1 := (((b &&& 0xF0) >>> 4) ||| ((b &&& 0x0F) <<< 4)) % 256
  let b2 := (((b1 &&& 0xCC) >>> 2) ||| ((b1 &&& 0x33) <<< 2)) % 256
  let b3 := (((b2 &&& 0xAA) >>> 1) ||| ((b2 &&& 0x55) <<< 1)) % 256
  b3

/-! ## The copying primitives -/

theorem length_memcpy (src : List Nat) : ∀ (dst : List Nat) (offset : Nat),
    (memcpy dst offset src).length = dst.length := by
  induction src with
  | nil => intro dst offset; rfl
  | cons b bs ih => intro dst offset; simp [memcpy, ih]

theorem getElem?_memcpy (src : List Nat) : ∀ (dst : List Nat) (offset j : Nat),
    (memcpy dst offset src)[j]? =
      if offset ≤ j ∧ j < offset + src.length ∧ j < dst.length then src[j - offset]?
      else dst[j]? := by
  induction src with
  | nil =>
    intro dst offset j
    have h : ¬ (offset ≤ j ∧ j < offset + ([] : List Nat).length ∧ j < dst.length) := by
      simp only [List.length_nil]; omega
    rw [if_neg h]; rfl
  | cons b bs ih =>
    intro dst offset j
    simp only [memcpy, ih, List.length_set, List.length_cons]
    by_cases h1 : offset + 1 ≤ j ∧ j < offset + 1 + bs.length ∧ j < dst.length
    · have h2 : offset ≤ j ∧ j < offset + (bs.length + 1) ∧ j < dst.length := by omega
      rw [if_pos h1, if_pos h2]
      obtain ⟨k, hk⟩ : ∃ k, j - offset = k + 1 := ⟨j - offset - 1, by omega⟩
      have hk2 : j - (offset + 1) = k := by omega
      rw [hk, hk2, List.getElem?_cons_succ]
    · rw [if_neg h1]
      by_cases h3 : offset = j
      · subst h3
        by_cases h4 : offset < dst.length
        · have h2 : offset ≤ offset ∧ offset < offset + (bs.length + 1) ∧ offset < dst.length := by
            omega
          rw [if_pos h2, List.getElem?_set, if_pos rfl, if_pos h4]
          simp
        · have h2 : ¬ (offset ≤ offset ∧ offset < offset + (bs.length + 1) ∧ offset < dst.length) := by
            omega
          rw [if_neg h2, List.getElem?_set, if_pos rfl, if_neg h4]
          exact (List.getElem?_eq_none (by omega)).symm
      · have h2 : ¬ (offset ≤ j ∧ j < offset + (bs.length + 1) ∧ j < dst.length) := by omega
        rw [if_neg h2, List.getElem?_set_ne h3]

theorem memset_eq_memcpy (v n : Nat) : ∀ (dst : List Nat) (offset : Nat),
    memset dst offset v n = memcpy dst offset (List.replicate n v) := by
  induction n with
  | zero => intro dst offset; rfl
  | succ n ih => intro dst offset; simp [memset, memcpy, List.replicate_succ, ih]

theorem length_memset (dst : List Nat) (offset v n : Nat) :
    (memset dst offset v n).length = dst.length := by
  rw [memset_eq_memcpy, length_memcpy]

theorem getElem?_memset (dst : List Nat) (offset v n j : Nat) :
    (memset dst offset v n)[j]? =
      if offset ≤ j ∧ j < offset + n ∧ j < dst.length then some v else dst[j]? := by
  rw [memset_eq_memcpy, getElem?_memcpy, List.length_replicate]
  by_cases h : offset ≤ j ∧ j < offset + n ∧ j < dst.length
  · rw [if_pos h, if_pos h, List.getElem?_replicate, if_pos (by omega)]
  · rw [if_neg h, if_neg h]

/-! ## The validation loop -/

theorem scan_passed_iff (w : RomWriter) (offset numBytes : Nat) : ∀ (n i : Nat),
    CheckWrite.scan w offset numBytes n i = CheckResult.passed ↔
      ∀ k, k < n → w._writtenBytes[offset + i + k]? = some 0 := by
  intro n
  induction n with
  | zero => intro i; simp [CheckWrite.scan]
  | succ n ih =>
    intro i
    constructor
    · intro h k hk
      unfold CheckWrite.scan at h
      cases hm : w._writtenBytes[offset + i]? with
      | none => rw [hm] at h; simp at h
      | some m =>
        rw [hm] at h
        by_cases h0 : m = 0
        · subst h0
          simp only [ne_eq, not_true_eq_false, if_false] at h
          cases k with
          | zero => simpa using hm
          | succ k =>
            have := (ih (i + 1)).1 h k (by omega)
            rw [← this]; congr 1; omega
        · simp [h0] at h
    · intro h
      unfold CheckWrite.scan
      have h0 := h 0 (by omega)
      simp only [Nat.add_zero] at h0
      rw [h0]
      simp only [ne_eq, not_true_eq_false, if_false]
      apply (ih (i + 1)).2
      intro k hk
      have := h (k + 1) (by omega)
      rw [← this]; congr 1; omega

theorem scan_conflict (w : RomWriter) (offset numBytes : Nat) : ∀ (n i : Nat),
    offset + i + n ≤ w._writtenBytes.length →
    (∃ k, k < n ∧ w._writtenBytes[offset + i + k]? ≠ some 0) →
    ∃ k, k < n ∧ w._writtenBytes[offset + i + k]? ≠ some 0 ∧
      (∀ k2, k2 < k → w._writtenBytes[offset + i + k2]? = some 0) ∧
      CheckWrite.scan w offset numBytes n i = CheckResult.threw
        (RomWriteError.mk "double-write" ((offset + i + k) % SIZE_T) offset numBytes) := by
  intro n
  induction n with
  | zero => intro i _ h; obtain ⟨k, hk, _⟩ := h; omega
  | succ n ih =>
    intro i hlen hex
    have hlt : offset + i < w._writtenBytes.length := by omega
    by_cases h0 : w._writtenBytes[offset + i]? = some 0
    · obtain ⟨k, hk, hne⟩ := hex
      have hkpos : k ≠ 0 := by
        intro hk0; subst hk0; exact hne (by simpa using h0)
      obtain ⟨k1, rfl⟩ : ∃ k1, k = k1 + 1 := ⟨k - 1, by omega⟩
      have hidx : ∀ t, offset + (i + 1) + t = offset + i + (t + 1) := by intro t; omega
      obtain ⟨k3, hk3, hne3, hmin3, hscan3⟩ :=
        ih (i + 1) (by omega) ⟨k1, by omega, by rw [hidx]; exact hne⟩
      refine ⟨k3 + 1, by omega, by rw [← hidx]; exact hne3, ?_, ?_⟩
      · intro k2 hk2
        cases k2 with
        | zero => simpa using h0
        | succ k2 => rw [← hidx]; exact hmin3 k2 (by omega)
      · unfold CheckWrite.scan
        rw [h0]
        simp only [ne_eq, not_true_eq_false, if_false]
        rw [hscan3, hidx]
    · refine ⟨0, by omega, by simpa using h0, by intro k2 hk2; omega, ?_⟩
      unfold CheckWrite.scan
      rw [List.getElem?_eq_getElem hlt] at h0 ⊢
      have hm : w._writtenBytes[offset + i] ≠ 0 := by
        intro hz; apply h0; rw [hz]
      simp [hm]

theorem CheckWrite_passed_iff (w : RomWriter) (offset numBytes : Nat) :
    CheckWrite w offset numBytes = CheckResult.passed ↔
      ¬ ((offset + numBytes) % SIZE_T > w.size) ∧
      ∀ k, k < numBytes → w._writtenBytes[offset + k]? = some 0 := by
  unfold CheckWrite
  by_cases hb : (offset + numBytes) % SIZE_T > w.size
  · simp [hb]
  · rw [if_neg hb, scan_passed_iff]
    simp [hb]

theorem scan_defined (w : RomWriter) (offset numBytes : Nat) : ∀ (n i : Nat),
    offset + i + n ≤ w._writtenBytes.length →
    CheckWrite.scan w offset numBytes n i ≠ CheckResult.undefined := by
  intro n
  induction n with
  | zero => intro i _ h; unfold CheckWrite.scan at h; cases h
  | succ n ih =>
    intro i hlen
    unfold CheckWrite.scan
    rw [List.getElem?_eq_getElem (by omega)]
    simp only []
    split
    · intro h; cases h
    · exact ih (i + 1) (by omega)

theorem CheckWrite_defined (w : RomWriter) (offset numBytes : Nat) (hw : w.WF)
    (h : offset + numBytes < SIZE_T) :
    CheckWrite w offset numBytes ≠ CheckResult.undefined := by
  unfold CheckWrite
  rw [Nat.mod_eq_of_lt h]
  split
  · intro h2; cases h2
  · apply scan_defined
    have := hw.1
    unfold RomWriter.size at *
    omega

theorem mod_SIZE_T_of_le_size (w : RomWriter) (hw : w.WF) (n : Nat) (h : n ≤ w.size) :
    n % SIZE_T = n := by
  apply Nat.mod_eq_of_lt
  have := hw.2
  unfold RomWriter.size at h
  omega

theorem CheckWrite_passed_of_free (w : RomWriter) (offset numBytes : Nat) (hw : w.WF)
    (hb : offset + numBytes ≤ w.size)
    (hu : ∀ i, offset ≤ i → i < offset + numBytes → w._writtenBytes[i]? = some 0) :
    CheckWrite w offset numBytes = CheckResult.passed := by
  rw [CheckWrite_passed_iff, mod_SIZE_T_of_le_size w hw _ hb]
  exact ⟨by omega, fun k hk => hu (offset + k) (by omega) (by omega)⟩

/-! ## Successful and failing writes -/

/-- C1: a write that is in bounds and whose whole target range is unwritten
succeeds; afterwards the target range of the data holds the written bytes and
every mask entry of the range is 1. -/
theorem WriteBytes_succeeds (w : RomWriter) (offset : Nat) (bytes : List Nat) (hw : w.WF)
    (hb : offset + bytes.length ≤ w.size)
    (hu : ∀ i, offset ≤ i → i < offset + bytes.length → w._writtenBytes[i]? = some 0) :
    ∃ w1, WriteBytes w offset bytes = Outcome.returned w1 ∧
      ∀ (k : Nat) (hk : k < bytes.length),
        w1._data[offset + k]? = some bytes[k] ∧ w1._writtenBytes[offset + k]? = some 1 := by
  have hpass := CheckWrite_passed_of_free w offset bytes.length hw hb hu
  refine ⟨_, by unfold WriteBytes; rw [hpass], ?_⟩
  intro k hk
  have hsz : offset + bytes.length ≤ w._data.length := hb
  have hm : w._writtenBytes.length = w._data.length := hw.1
  constructor
  · rw [getElem?_memcpy, if_pos (by omega)]
    have : offset + k - offset = k := by omega
    rw [this, List.getElem?_eq_getElem hk]
  · rw [getElem?_memset, if_pos (by omega)]

/-- Scenario A, first write: `{1,2}` at offset 2 of a fresh 8-byte buffer. -/
theorem WriteBytes_succeeds_witness :
    ∃ w1, WriteBytes (RomWriter.new 8) 2 [1, 2] = Outcome.returned w1 ∧
      ∀ (k : Nat) (hk : k < [1, 2].length),
        w1._data[2 + k]? = some [1, 2][k] ∧ w1._writtenBytes[2 + k]? = some 1 :=
  WriteBytes_succeeds (RomWriter.new 8) 2 [1, 2] (by decide) (by decide) (by decide)

/-- C2: an in-bounds write whose target range holds an index already marked
written throws "double-write", the object unchanged, and the error carries the
lowest marked index of the range, the start of the write and its length. -/
theorem WriteBytes_double_write (w : RomWriter) (offset : Nat) (bytes : List Nat) (hw : w.WF)
    (hb : offset + bytes.length ≤ w.size)
    (hc : ∃ j, offset ≤ j ∧ j < offset + bytes.length ∧ w.isWritten j = true) :
    ∃ i, offset ≤ i ∧ i < offset + bytes.length ∧ w.isWritten i = true ∧
      (∀ j, offset ≤ j → j < offset + bytes.length → w.isWritten j = true → i ≤ j) ∧
      WriteBytes w offset bytes =
        Outcome.threw (RomWriteError.mk "double-write" i offset bytes.length) w := by
  have hsz : offset + bytes.length ≤ w._data.length := hb
  have hm : w._writtenBytes.length = w._data.length := hw.1
  have hwr : ∀ j, j < w._writtenBytes.length →
      (w.isWritten j = true ↔ w._writtenBytes[j]? ≠ some 0) := by
    intro j hj
    unfold RomWriter.isWritten
    rw [List.getElem?_eq_getElem hj]
    simp
  obtain ⟨j, hj1, hj2, hj3⟩ := hc
  obtain ⟨k, hk, hne, hmin, hscan⟩ :=
    scan_conflict w offset bytes.length bytes.length 0 (by omega)
      ⟨j - offset, by omega, by
        have : offset + 0 + (j - offset) = j := by omega
        rw [this]; exact (hwr j (by omega)).1 hj3⟩
  simp only [Nat.add_zero] at hne hmin hscan
  refine ⟨offset + k, by omega, by omega, (hwr _ (by omega)).2 hne, ?_, ?_⟩
  · intro j2 h1 h2 h3
    by_contra hlt
    have := hmin (j2 - offset) (by omega)
    have e : offset + (j2 - offset) = j2 := by omega
    rw [e] at this
    exact (hwr j2 (by omega)).1 h3 this
  · have hbound : ¬ ((offset + bytes.length) % SIZE_T > w.size) := by
      rw [mod_SIZE_T_of_le_size w hw _ hb]; omega
    have hmod : (offset + k) % SIZE_T = offset + k :=
      mod_SIZE_T_of_le_size w hw _ (by unfold RomWriter.size; omega)
    unfold WriteBytes CheckWrite
    rw [if_neg hbound, hscan, hmod]

/-- Scenario A, second write: `{9}` at offset 3 after `{1,2}` at offset 2. -/
theorem WriteBytes_double_write_witness :
    ∃ i, 3 ≤ i ∧ i < 3 + [9].length ∧
      RomWriter.isWritten ⟨[0, 0, 1, 2, 0, 0, 0, 0], [0, 0, 1, 1, 0, 0, 0, 0]⟩ i = true ∧
      (∀ j, 3 ≤ j → j < 3 + [9].length →
        RomWriter.isWritten ⟨[0, 0, 1, 2, 0, 0, 0, 0], [0, 0, 1, 1, 0, 0, 0, 0]⟩ j = true →
        i ≤ j) ∧
      WriteBytes ⟨[0, 0, 1, 2, 0, 0, 0, 0], [0, 0, 1, 1, 0, 0, 0, 0]⟩ 3 [9] =
        Outcome.threw (RomWriteError.mk "double-write" i 3 [9].length)
          ⟨[0, 0, 1, 2, 0, 0, 0, 0], [0, 0, 1, 1, 0, 0, 0, 0]⟩ :=
  WriteBytes_double_write ⟨[0, 0, 1, 2, 0, 0, 0, 0], [0, 0, 1, 1, 0, 0, 0, 0]⟩ 3 [9]
    (by decide) (by decide) ⟨3, by decide, by decide, by decide⟩

/-- C3: where `offset + numBytes` exceeds the largest `size_t`, the sum in the
bounds test of `CheckWrite` wraps around and the test lets the write through:
on an 8-byte buffer whose byte 1 is written, `CheckWrite(1, 2^64 - 1)` throws
"double-write" and not "write past end of ROM", and on a fresh 8-byte buffer
`WriteBytes(2^64 - 1, {1})` goes on to read the mask outside the vector. -/
theorem CheckWrite_bounds_test_wraps :
    1 + (2 ^ 64 - 1) > (RomWriter.mk [0, 5, 0, 0, 0, 0, 0, 0] [0, 1, 0, 0, 0, 0, 0, 0]).size ∧
    CheckWrite ⟨[0, 5, 0, 0, 0, 0, 0, 0], [0, 1, 0, 0, 0, 0, 0, 0]⟩ 1 (2 ^ 64 - 1)
      = CheckResult.threw (RomWriteError.mk "double-write" 1 1 (2 ^ 64 - 1)) ∧
    (2 ^ 64 - 1) + [1].length > (RomWriter.new 8).size ∧
    CheckWrite (RomWriter.new 8) (2 ^ 64 - 1) [1].length = CheckResult.undefined ∧
    WriteBytes (RomWriter.new 8) (2 ^ 64 - 1) [1] = Outcome.undefined := by
  decide

/-- C4: a write that throws, with either error, leaves the object as it was:
the data and the mask at the throw are those before the call. -/
theorem WriteBytes_atomic (w : RomWriter) (offset : Nat) (bytes : List Nat)
    (e : RomWriteError) (w1 : RomWriter)
    (h : WriteBytes w offset bytes = Outcome.threw e w1) :
    w1._data = w._data ∧ w1._writtenBytes = w._writtenBytes := by
  unfold WriteBytes at h
  cases hc : CheckWrite w offset bytes.length with
  | passed => rw [hc] at h; cases h
  | threw e2 => rw [hc] at h; cases h; exact ⟨rfl, rfl⟩
  | undefined => rw [hc] at h; cases h

/-- Scenario B: five bytes at offset 6 of a fresh 10-byte buffer. -/
theorem WriteBytes_atomic_witness :
    WriteBytes (RomWriter.new 10) 6 [1, 2, 3, 4, 5] =
        Outcome.threw (RomWriteError.mk "write past end of ROM" 10 6 5) (RomWriter.new 10) ∧
      (RomWriter.new 10)._data = List.replicate 10 0 ∧
      (RomWriter.new 10)._writtenBytes = List.replicate 10 0 :=
  ⟨by decide,
    WriteBytes_atomic (RomWriter.new 10) 6 [1, 2, 3, 4, 5]
      (RomWriteError.mk "write past end of ROM" 10 6 5) (RomWriter.new 10) (by decide)⟩

/-! ## Writes from a file -/

/-- C5: `WriteFromFile` copies the file into the data and leaves the mask as it
was, so a later write over the same bytes passes `CheckWrite`: on a fresh
8-byte buffer the regular file `{1,2}` written at offset 2 and then `{9}` written at
offset 3 both return, and byte 3 has been written twice. -/
theorem WriteFromFile_then_WriteBytes_overlap :
    WriteFromFile (RomWriter.new 8) 2 (some (regularFile [1, 2])) =
        Outcome.returned ⟨[0, 0, 1, 2, 0, 0, 0, 0], [0, 0, 0, 0, 0, 0, 0, 0]⟩ ∧
      WriteBytes ⟨[0, 0, 1, 2, 0, 0, 0, 0], [0, 0, 0, 0, 0, 0, 0, 0]⟩ 3 [9] =
        Outcome.returned ⟨[0, 0, 1, 9, 0, 0, 0, 0], [0, 0, 0, 1, 0, 0, 0, 0]⟩ ∧
      run (RomWriter.new 8) [Op.writeFromFile 2 (some (regularFile [1, 2])), Op.writeBytes 3 [9]] =
        some ⟨[0, 0, 1, 9, 0, 0, 0, 0], [0, 0, 0, 1, 0, 0, 0, 0]⟩ ∧
      (2 ≤ 3 ∧ 3 < 2 + [1, 2].length) ∧ (3 ≤ 3 ∧ 3 < 3 + [9].length) := by
  decide

/-- C6: on a fresh 4-byte buffer the regular file `{7,8}` written at offset 1 and the
literal bytes `{7,8}` written at offset 1 both return with the same data, but
the mask after `WriteFromFile` is still all 0 and the mask after `WriteBytes`
is `[0,1,1,0]`. -/
theorem WriteFromFile_differs_from_WriteBytes :
    WriteFromFile (RomWriter.new 4) 1 (some (regularFile [7, 8])) =
        Outcome.returned ⟨[0, 7, 8, 0], [0, 0, 0, 0]⟩ ∧
      WriteBytes (RomWriter.new 4) 1 [7, 8] =
        Outcome.returned ⟨[0, 7, 8, 0], [0, 1, 1, 0]⟩ ∧
      WriteFromFile (RomWriter.new 4) 1 (some (regularFile [7, 8])) ≠
        WriteBytes (RomWriter.new 4) 1 [7, 8] := by
  decide

theorem WF_new (n : Nat) (hn : n < SIZE_T) : (RomWriter.new n).WF := by
  unfold RomWriter.WF RomWriter.new
  exact ⟨by simp only [List.length_replicate], by simpa only [List.length_replicate] using hn⟩

theorem fileSize_regularFile (contents : List Nat) (h : contents.length < SIZE_T) :
    (regularFile contents).fileSize = contents.length := by
  unfold OpenFile.fileSize regularFile
  simp only []
  rw [Int.emod_eq_of_lt (Int.natCast_nonneg _) (Int.ofNat_lt.2 h)]
  exact Int.toNat_natCast _

theorem fread_regularFile (contents : List Nat) :
    (regularFile contents).fread contents.length = contents := by
  unfold OpenFile.fread regularFile
  exact List.take_length _

theorem length_fread_le (f : OpenFile) (n : Nat) : (f.fread n).length ≤ n := by
  unfold OpenFile.fread
  rw [List.length_take]
  omega

theorem WriteBytes_fresh (n : Nat) (hn : n < SIZE_T) (lit : List Nat) (o1 : Nat)
    (h1 : o1 + lit.length ≤ n) :
    WriteBytes (RomWriter.new n) o1 lit = Outcome.returned
      ⟨memcpy (RomWriter.new n)._data o1 lit,
        memset (RomWriter.new n)._writtenBytes o1 1 lit.length⟩ := by
  have hsize : (RomWriter.new n).size = n := by
    unfold RomWriter.size RomWriter.new; exact List.length_replicate _ _
  have hp1 : CheckWrite (RomWriter.new n) o1 lit.length = CheckResult.passed :=
    CheckWrite_passed_of_free _ _ _ (WF_new n hn) (by omega) (fun i _ hi => by
      unfold RomWriter.new; exact List.getElem?_replicate_of_lt (by omega))
  unfold WriteBytes; rw [hp1]

theorem assemble_fresh (n : Nat) (hn : n < SIZE_T) (lit : List Nat) (o1 o2 : Nat)
    (f : OpenFile) (h1 : o1 + lit.length ≤ o2) (h2 : o2 + f.fileSize ≤ n) :
    ∃ w1 w2, WriteBytes (RomWriter.new n) o1 lit = Outcome.returned w1 ∧
      WriteFromFile w1 o2 (some f) = Outcome.returned w2 ∧
      w2._data.length = n ∧
      (∀ (k : Nat) (hk : k < lit.length), w2._data[o1 + k]? = some lit[k]) ∧
      (∀ (k : Nat) (hk : k < (f.fread f.fileSize).length),
        w2._data[o2 + k]? = some (f.fread f.fileSize)[k]) ∧
      (∀ j, j < n → ¬ (o1 ≤ j ∧ j < o1 + lit.length) →
        ¬ (o2 ≤ j ∧ j < o2 + (f.fread f.fileSize).length) → w2._data[j]? = some 0) := by
  have hwf := WF_new n hn
  have hsize : (RomWriter.new n).size = n := by
    unfold RomWriter.size RomWriter.new; exact List.length_replicate _ _
  have hd0 : ∀ j, j < n → (RomWriter.new n)._data[j]? = some 0 := by
    intro j hj; unfold RomWriter.new; exact List.getElem?_replicate_of_lt hj
  have hm0 : ∀ j, j < n → (RomWriter.new n)._writtenBytes[j]? = some 0 := by
    intro j hj; unfold RomWriter.new; exact List.getElem?_replicate_of_lt hj
  have hdl : (RomWriter.new n)._data.length = n := hsize
  have hml : (RomWriter.new n)._writtenBytes.length = n := by
    unfold RomWriter.new; exact List.length_replicate _ _
  have hfl := length_fread_le f f.fileSize
  have hp1 : CheckWrite (RomWriter.new n) o1 lit.length = CheckResult.passed :=
    CheckWrite_passed_of_free _ _ _ hwf (by omega) (fun i _ hi => hm0 i (by omega))
  have e1 : WriteBytes (RomWriter.new n) o1 lit = Outcome.returned
      ⟨memcpy (RomWriter.new n)._data o1 lit,
        memset (RomWriter.new n)._writtenBytes o1 1 lit.length⟩ := by
    unfold WriteBytes; rw [hp1]
  have hwf1 : (RomWriter.mk (memcpy (RomWriter.new n)._data o1 lit)
      (memset (RomWriter.new n)._writtenBytes o1 1 lit.length)).WF := by
    unfold RomWriter.WF
    simp only [length_memcpy, length_memset]
    exact hwf
  have hp2 : CheckWrite (RomWriter.mk (memcpy (RomWriter.new n)._data o1 lit)
      (memset (RomWriter.new n)._writtenBytes o1 1 lit.length)) o2 f.fileSize
        = CheckResult.passed := by
    apply CheckWrite_passed_of_free _ _ _ hwf1
    · unfold RomWriter.size; simp only [length_memcpy]; omega
    · intro i hi1 hi2
      simp only []
      rw [getElem?_memset, if_neg (by omega)]
      exact hm0 i (by omega)
  refine ⟨_, _, e1, by unfold WriteFromFile; simp only []; rw [hp2], ?_, ?_, ?_, ?_⟩
  · simp only [length_memcpy]; exact hdl
  · intro k hk
    simp only []
    rw [getElem?_memcpy, if_neg (by omega), getElem?_memcpy, if_pos (by omega)]
    have : o1 + k - o1 = k := by omega
    rw [this, List.getElem?_eq_getElem hk]
  · intro k hk
    rw [getElem?_memcpy, if_pos (by simp only [length_memcpy]; omega)]
    have : o2 + k - o2 = k := by omega
    rw [this, List.getElem?_eq_getElem hk]
  · intro j hj hn1 hn2
    simp only []
    rw [getElem?_memcpy, if_neg (by omega), getElem?_memcpy, if_neg (by omega)]
    exact hd0 j hj

theorem andThen_returned (w : RomWriter) (next : RomWriter → Outcome) :
    (Outcome.returned w).andThen next = next w := rfl

theorem andThen_main (file : Option OpenFile) (w1 : RomWriter)
    (e1 : WriteBytes (RomWriter.new 524288) 0x4 [0x00, 0x40, 0x00, 0x2a] = Outcome.returned w1) :
    main file = WriteFromFile w1 0x2a file := by
  have h512 : 1024 * 512 = 524288 := by norm_num
  unfold main
  rw [h512, e1, andThen_returned]

theorem scan_undefined (w : RomWriter) (offset numBytes : Nat) : ∀ (n i m : Nat), m < n →
    w._writtenBytes[offset + i + m]? = none →
    (∀ k, k < m → w._writtenBytes[offset + i + k]? = some 0) →
    CheckWrite.scan w offset numBytes n i = CheckResult.undefined := by
  intro n
  induction n with
  | zero => intro i m hm; omega
  | succ n ih =>
    intro i m hm hnone hzero
    unfold CheckWrite.scan
    cases m with
    | zero =>
      rw [Nat.add_zero] at hnone
      rw [hnone]
    | succ m =>
      have h0 := hzero 0 (by omega)
      rw [Nat.add_zero] at h0
      rw [h0]
      simp only [ne_eq, not_true_eq_false, if_false]
      have hidx : ∀ t, offset + (i + 1) + t = offset + i + (t + 1) := by intro t; omega
      apply ih (i + 1) m (by omega)
      · rw [hidx]; exact hnone
      · intro k hk; rw [hidx]; exact hzero (k + 1) (by omega)

theorem CheckWrite_undefined_of_free_tail (w : RomWriter) (offset numBytes : Nat)
    (hl : w._writtenBytes.length = w._data.length) (ho : offset ≤ w.size)
    (hfree : ∀ i, offset ≤ i → i < w.size → w._writtenBytes[i]? = some 0)
    (hwrap : (offset + numBytes) % SIZE_T ≤ w.size) (hlong : w.size - offset < numBytes) :
    CheckWrite w offset numBytes = CheckResult.undefined := by
  unfold RomWriter.size at ho hfree hwrap hlong
  unfold CheckWrite
  rw [if_neg (by unfold RomWriter.size; omega)]
  apply scan_undefined w offset numBytes numBytes 0 (w._data.length - offset) hlong
  · apply List.getElem?_eq_none
    omega
  · intro k hk
    exact hfree _ (by omega) (by omega)

theorem WriteFromFile_undefined (w : RomWriter) (offset : Nat) (f : OpenFile) (n : Nat)
    (hn : f.fileSize = n) (h : CheckWrite w offset n = CheckResult.undefined) :
    WriteFromFile w offset (some f) = Outcome.undefined := by
  subst hn
  unfold WriteFromFile
  simp only []
  rw [h]

theorem CheckWrite_undefined_after_fresh (n : Nat) (lit : List Nat)
    (o1 o2 numBytes : Nat) (h1 : o1 + lit.length ≤ o2) (h2 : o2 ≤ n)
    (hwrap : (o2 + numBytes) % SIZE_T ≤ n) (hlong : n - o2 < numBytes) :
    CheckWrite ⟨memcpy (RomWriter.new n)._data o1 lit,
      memset (RomWriter.new n)._writtenBytes o1 1 lit.length⟩ o2 numBytes
        = CheckResult.undefined := by
  have hdl : (RomWriter.new n)._data.length = n := by
    unfold RomWriter.new; exact List.length_replicate _ _
  have hml : (RomWriter.new n)._writtenBytes.length = n := by
    unfold RomWriter.new; exact List.length_replicate _ _
  apply CheckWrite_undefined_of_free_tail
  · simp only [length_memcpy, length_memset, hdl, hml]
  · unfold RomWriter.size; simp only [length_memcpy, hdl]; exact h2
  · intro i hi1 hi2
    unfold RomWriter.size at hi2
    simp only [length_memcpy, hdl] at hi2
    simp only []
    rw [getElem?_memset, if_neg (by omega)]
    unfold RomWriter.new
    exact List.getElem?_replicate_of_lt hi2
  · unfold RomWriter.size; simp only [length_memcpy, hdl]; exact hwrap
  · unfold RomWriter.size; simp only [length_memcpy, hdl]; exact hlong

/-- C7, as stated, fails on files that open but are not regular.  For a file
that delivers the two bytes `{97, 98}` and whose `ftell` reports 0 (as files
of procfs do), `main` returns with byte `0x2a` of the data still 0 and not 97.
For one whose `ftell` fails with -1 (a pipe), the length becomes `2^64 - 1`,
the bounds test wraps around and the scan leaves the mask, so `main` neither
returns nor throws. -/
theorem main_misses_irregular_file :
    (0x2a + (OpenFile.mk 0 [97, 98]).readable.length ≤ 524288 ∧
      ∃ w, main (some (OpenFile.mk 0 [97, 98])) = Outcome.returned w ∧
        w._data[0x2a]? = some 0 ∧ w._data[0x2a]? ≠ some 97) ∧
    (0x2a + (OpenFile.mk (-1) [97, 98]).readable.length ≤ 524288 ∧
      main (some (OpenFile.mk (-1) [97, 98])) = Outcome.undefined) := by
  have hsz : (524288 : Nat) < SIZE_T := by unfold SIZE_T; omega
  have hf0 : (OpenFile.mk 0 [97, 98]).fileSize = 0 := by decide
  have hf1 : (OpenFile.mk (-1) [97, 98]).fileSize = 18446744073709551615 := by decide
  constructor
  · refine ⟨by decide, ?_⟩
    obtain ⟨w1, w2, e1, e2, _, _, _, hrest⟩ :=
      assemble_fresh 524288 hsz [0x00, 0x40, 0x00, 0x2a] 0x4 0x2a (OpenFile.mk 0 [97, 98])
        (by simp) (by rw [hf0]; omega)
    have h0 : w2._data[0x2a]? = some 0 :=
      hrest 0x2a (by omega) (by simp) (by
        have := length_fread_le (OpenFile.mk 0 [97, 98]) (OpenFile.mk 0 [97, 98]).fileSize
        rw [hf0] at this ⊢
        omega)
    refine ⟨w2, by rw [andThen_main _ w1 e1]; exact e2, h0, ?_⟩
    rw [h0]
    decide
  · refine ⟨by decide, ?_⟩
    have e1 := WriteBytes_fresh 524288 hsz [0x00, 0x40, 0x00, 0x2a] 0x4 (by simp)
    have hc := CheckWrite_undefined_after_fresh 524288 [0x00, 0x40, 0x00, 0x2a] 0x4 0x2a
      18446744073709551615 (by simp) (by omega) (by unfold SIZE_T; omega) (by omega)
    rw [andThen_main _ _ e1]
    exact WriteFromFile_undefined _ _ _ _ hf1 hc

/-- C7, amended: for a regular input file of contents `contents`, `n` bytes
with `0x2a + n ≤ 524288`, the two writes of `main` return; the data then has
524288 bytes, bytes 4..7 are `00 40 00 2a`, the bytes from `0x2a` on are the
file, and all others are 0. -/
theorem main_assembles (contents : List Nat) (hc : 0x2a + contents.length ≤ 524288) :
    ∃ w, main (some (regularFile contents)) = Outcome.returned w ∧
      w._data.length = 524288 ∧
      (∀ (k : Nat) (hk : k < [0x00, 0x40, 0x00, 0x2a].length),
        w._data[0x4 + k]? = some [0x00, 0x40, 0x00, 0x2a][k]) ∧
      (∀ (k : Nat) (hk : k < contents.length), w._data[0x2a + k]? = some contents[k]) ∧
      (∀ j, j < 524288 → ¬ (0x4 ≤ j ∧ j < 0x8) → ¬ (0x2a ≤ j ∧ j < 0x2a + contents.length) →
        w._data[j]? = some 0x00) := by
  have hfs : (regularFile contents).fileSize = contents.length :=
    fileSize_regularFile contents (by unfold SIZE_T; omega)
  have hfr : (regularFile contents).fread (regularFile contents).fileSize = contents := by
    rw [hfs]; exact fread_regularFile contents
  obtain ⟨w1, w2, e1, e2, hlen, hlit, hfile, hrest⟩ :=
    assemble_fresh 524288 (by unfold SIZE_T; omega) [0x00, 0x40, 0x00, 0x2a] 0x4 0x2a
      (regularFile contents) (by simp) (by rw [hfs]; exact hc)
  rw [hfr] at hfile hrest
  exact ⟨w2, by rw [andThen_main _ w1 e1]; exact e2, hlen, hlit, hfile,
    fun j hj a b => hrest j hj (by simpa using a) b⟩

/-- Scenario C with a regular file of 100 bytes, all equal to 7. -/
theorem main_assembles_witness :
    ∃ w, main (some (regularFile (List.replicate 100 7))) = Outcome.returned w ∧
      w._data.length = 524288 ∧
      (∀ (k : Nat) (hk : k < [0x00, 0x40, 0x00, 0x2a].length),
        w._data[0x4 + k]? = some [0x00, 0x40, 0x00, 0x2a][k]) ∧
      (∀ (k : Nat) (hk : k < (List.replicate 100 7).length),
        w._data[0x2a + k]? = some (List.replicate 100 7)[k]) ∧
      (∀ j, j < 524288 → ¬ (0x4 ≤ j ∧ j < 0x8) →
        ¬ (0x2a ≤ j ∧ j < 0x2a + (List.replicate 100 7).length) →
        w._data[j]? = some 0x00) :=
  main_assembles (List.replicate 100 7) (by simp)

/-! ## Two writes, and what a write leaves alone -/

theorem WriteBytes_of_passed (w : RomWriter) (offset : Nat) (bytes : List Nat)
    (h : CheckWrite w offset bytes.length = CheckResult.passed) :
    WriteBytes w offset bytes = Outcome.returned
      ⟨memcpy w._data offset bytes, memset w._writtenBytes offset 1 bytes.length⟩ := by
  unfold WriteBytes; rw [h]

theorem WriteBytes_returned_inv (w : RomWriter) (offset : Nat) (bytes : List Nat)
    (w1 : RomWriter) (h : WriteBytes w offset bytes = Outcome.returned w1) :
    CheckWrite w offset bytes.length = CheckResult.passed ∧
      w1 = ⟨memcpy w._data offset bytes, memset w._writtenBytes offset 1 bytes.length⟩ := by
  unfold WriteBytes at h
  cases hc : CheckWrite w offset bytes.length with
  | passed => rw [hc] at h; cases h; exact ⟨rfl, rfl⟩
  | threw e => rw [hc] at h; cases h
  | undefined => rw [hc] at h; cases h

theorem WriteFromFile_returned_inv (w : RomWriter) (offset : Nat) (file : Option OpenFile)
    (w1 : RomWriter) (h : WriteFromFile w offset file = Outcome.returned w1) :
    ∃ f, file = some f ∧
      CheckWrite w offset f.fileSize = CheckResult.passed ∧
      w1 = ⟨memcpy w._data offset (f.fread f.fileSize), w._writtenBytes⟩ := by
  cases file with
  | none => cases h
  | some f =>
    refine ⟨f, rfl, ?_⟩
    unfold WriteFromFile at h
    simp only [] at h
    cases hc : CheckWrite w offset f.fileSize with
    | passed => rw [hc] at h; cases h; exact ⟨rfl, rfl⟩
    | threw e => rw [hc] at h; cases h
    | undefined => rw [hc] at h; cases h

theorem WriteFromFile_threw_inv (w : RomWriter) (offset : Nat) (file : Option OpenFile)
    (e : RomWriteError) (w1 : RomWriter) (h : WriteFromFile w offset file = Outcome.threw e w1) :
    w1 = w := by
  cases file with
  | none => cases h
  | some f =>
    unfold WriteFromFile at h
    simp only [] at h
    cases hc : CheckWrite w offset f.fileSize with
    | passed => rw [hc] at h; cases h
    | threw e2 => rw [hc] at h; cases h; rfl
    | undefined => rw [hc] at h; cases h

theorem WriteBytes_threw_inv (w : RomWriter) (offset : Nat) (bytes : List Nat)
    (e : RomWriteError) (w1 : RomWriter) (h : WriteBytes w offset bytes = Outcome.threw e w1) :
    w1 = w := by
  unfold WriteBytes at h
  cases hc : CheckWrite w offset bytes.length with
  | passed => rw [hc] at h; cases h
  | threw e2 => rw [hc] at h; cases h; rfl
  | undefined => rw [hc] at h; cases h

theorem memcpy_comm (dst : List Nat) (o1 o2 : Nat) (b1 b2 : List Nat)
    (hd : ∀ j, ¬ ((o1 ≤ j ∧ j < o1 + b1.length) ∧ (o2 ≤ j ∧ j < o2 + b2.length))) :
    memcpy (memcpy dst o1 b1) o2 b2 = memcpy (memcpy dst o2 b2) o1 b1 := by
  apply List.ext_getElem?
  intro j
  have hj := hd j
  simp only [getElem?_memcpy, length_memcpy]
  by_cases h1 : o1 ≤ j ∧ j < o1 + b1.length ∧ j < dst.length
  · have h2 : ¬ (o2 ≤ j ∧ j < o2 + b2.length ∧ j < dst.length) := by omega
    rw [if_pos h1, if_neg h2, if_pos h1]
  · rw [if_neg h1, if_neg h1]

theorem memset_comm (dst : List Nat) (o1 o2 v n1 n2 : Nat)
    (hd : ∀ j, ¬ ((o1 ≤ j ∧ j < o1 + n1) ∧ (o2 ≤ j ∧ j < o2 + n2))) :
    memset (memset dst o1 v n1) o2 v n2 = memset (memset dst o2 v n2) o1 v n1 := by
  simp only [memset_eq_memcpy]
  apply memcpy_comm
  simpa only [List.length_replicate] using hd

theorem WF_after_write (w : RomWriter) (hw : w.WF) (offset n : Nat) (bytes : List Nat) :
    (RomWriter.mk (memcpy w._data offset bytes) (memset w._writtenBytes offset 1 n)).WF := by
  unfold RomWriter.WF
  simp only [length_memcpy, length_memset]
  exact hw

theorem CheckWrite_passed_after_write (w : RomWriter) (hw : w.WF) (o1 o2 : Nat)
    (b1 : List Nat) (n2 : Nat) (hb2 : o2 + n2 ≤ w.size)
    (hd : ∀ j, ¬ ((o1 ≤ j ∧ j < o1 + b1.length) ∧ (o2 ≤ j ∧ j < o2 + n2)))
    (hu2 : ∀ i, o2 ≤ i → i < o2 + n2 → w._writtenBytes[i]? = some 0) :
    CheckWrite ⟨memcpy w._data o1 b1, memset w._writtenBytes o1 1 b1.length⟩ o2 n2
      = CheckResult.passed := by
  apply CheckWrite_passed_of_free _ _ _ (WF_after_write w hw o1 b1.length b1)
  · unfold RomWriter.size at hb2 ⊢
    simp only [length_memcpy]; exact hb2
  · intro i hi1 hi2
    have hj := hd i
    simp only []
    rw [getElem?_memset, if_neg (by omega)]
    exact hu2 i hi1 hi2

/-- C8: two in-bounds writes whose ranges are disjoint and unwritten succeed in
either order, and both orders end in the same data and the same mask. -/
theorem WriteBytes_disjoint_commute (w : RomWriter) (o1 o2 : Nat) (b1 b2 : List Nat)
    (hw : w.WF) (hb1 : o1 + b1.length ≤ w.size) (hb2 : o2 + b2.length ≤ w.size)
    (hd : ∀ j, ¬ ((o1 ≤ j ∧ j < o1 + b1.length) ∧ (o2 ≤ j ∧ j < o2 + b2.length)))
    (hu1 : ∀ i, o1 ≤ i → i < o1 + b1.length → w._writtenBytes[i]? = some 0)
    (hu2 : ∀ i, o2 ≤ i → i < o2 + b2.length → w._writtenBytes[i]? = some 0) :
    ∃ w1 w12 w2 w21,
      WriteBytes w o1 b1 = Outcome.returned w1 ∧ WriteBytes w1 o2 b2 = Outcome.returned w12 ∧
      WriteBytes w o2 b2 = Outcome.returned w2 ∧ WriteBytes w2 o1 b1 = Outcome.returned w21 ∧
      w12._data = w21._data ∧ w12._writtenBytes = w21._writtenBytes := by
  have hd2 : ∀ j, ¬ ((o2 ≤ j ∧ j < o2 + b2.length) ∧ (o1 ≤ j ∧ j < o1 + b1.length)) :=
    fun j h => hd j ⟨h.2, h.1⟩
  refine ⟨_, _, _, _,
    WriteBytes_of_passed w o1 b1 (CheckWrite_passed_of_free w o1 _ hw hb1 hu1),
    WriteBytes_of_passed _ o2 b2 (CheckWrite_passed_after_write w hw o1 o2 b1 _ hb2 hd hu2),
    WriteBytes_of_passed w o2 b2 (CheckWrite_passed_of_free w o2 _ hw hb2 hu2),
    WriteBytes_of_passed _ o1 b1 (CheckWrite_passed_after_write w hw o2 o1 b2 _ hb1 hd2 hu1),
    memcpy_comm _ _ _ _ _ hd, memset_comm _ _ _ _ _ _ hd⟩

/-- Two disjoint writes on a fresh 8-byte buffer: `{1,2}` at 2 and `{9}` at 5. -/
theorem WriteBytes_disjoint_commute_witness :
    ∃ w1 w12 w2 w21,
      WriteBytes (RomWriter.new 8) 2 [1, 2] = Outcome.returned w1 ∧
      WriteBytes w1 5 [9] = Outcome.returned w12 ∧
      WriteBytes (RomWriter.new 8) 5 [9] = Outcome.returned w2 ∧
      WriteBytes w2 2 [1, 2] = Outcome.returned w21 ∧
      w12._data = w21._data ∧ w12._writtenBytes = w21._writtenBytes :=
  WriteBytes_disjoint_commute (RomWriter.new 8) 2 5 [1, 2] [9] (by decide) (by decide)
    (by decide) (by simp only [List.length_cons, List.length_nil]; omega)
    (by decide) (by decide)

theorem not_in_range_of_passed (w : RomWriter) (offset n i : Nat)
    (hp : CheckWrite w offset n = CheckResult.passed) (hi : w.isWritten i = true) :
    ¬ (offset ≤ i ∧ i < offset + n) := by
  intro hr
  have h0 := ((CheckWrite_passed_iff w offset n).1 hp).2 (i - offset) (by omega)
  have e : offset + (i - offset) = i := by omega
  rw [e] at h0
  unfold RomWriter.isWritten at hi
  rw [h0] at hi
  simp at hi

theorem frozen_step (w : RomWriter) (i : Nat) (hi : w.isWritten i = true) (op : Op)
    (w1 : RomWriter)
    (h : op.apply w = Outcome.returned w1 ∨ ∃ e, op.apply w = Outcome.threw e w1) :
    w1.isWritten i = true ∧ w1._data[i]? = w._data[i]? := by
  cases op with
  | writeBytes offset bytes =>
    rcases h with h | ⟨e, h⟩
    · obtain ⟨hp, rfl⟩ := WriteBytes_returned_inv w offset bytes w1 h
      have hr := not_in_range_of_passed w offset bytes.length i hp hi
      constructor
      · unfold RomWriter.isWritten at hi ⊢
        simp only []
        rw [getElem?_memset, if_neg (by omega)]
        exact hi
      · simp only []
        rw [getElem?_memcpy, if_neg (by omega)]
    · rw [WriteBytes_threw_inv w offset bytes e w1 h]
      exact ⟨hi, rfl⟩
  | writeFromFile offset file =>
    rcases h with h | ⟨e, h⟩
    · obtain ⟨f, _, hp, rfl⟩ := WriteFromFile_returned_inv w offset file w1 h
      have hr := not_in_range_of_passed w offset f.fileSize i hp hi
      have hl := length_fread_le f f.fileSize
      constructor
      · exact hi
      · simp only []
        rw [getElem?_memcpy, if_neg (by omega)]
    · rw [WriteFromFile_threw_inv w offset file e w1 h]
      exact ⟨hi, rfl⟩

theorem frozen_run (ops : List Op) : ∀ (w : RomWriter) (i : Nat), w.isWritten i = true →
    ∀ w1, run w ops = some w1 → w1.isWritten i = true ∧ w1._data[i]? = w._data[i]? := by
  induction ops with
  | nil =>
    intro w i hi w1 h
    unfold run at h
    cases h
    exact ⟨hi, rfl⟩
  | cons op ops ih =>
    intro w i hi w1 h
    unfold run at h
    cases ho : op.apply w with
    | returned w2 =>
      rw [ho] at h
      obtain ⟨h2, d2⟩ := frozen_step w i hi op w2 (Or.inl ho)
      obtain ⟨h3, d3⟩ := ih w2 i h2 w1 h
      exact ⟨h3, d3.trans d2⟩
    | threw e w2 =>
      rw [ho] at h
      obtain ⟨h2, d2⟩ := frozen_step w i hi op w2 (Or.inr ⟨e, ho⟩)
      obtain ⟨h3, d3⟩ := ih w2 i h2 w1 h
      exact ⟨h3, d3.trans d2⟩
    | exited code => rw [ho] at h; cases h
    | undefined => rw [ho] at h; cases h

/-- C9: an index whose mask entry is written keeps its mask entry and its data
byte over one operation of either kind, whether it returns or throws, and so
over every sequence of operations. -/
theorem written_bytes_frozen (w : RomWriter) (i : Nat) (hi : w.isWritten i = true) :
    (∀ (op : Op) (w1 : RomWriter),
        (op.apply w = Outcome.returned w1 ∨ ∃ e, op.apply w = Outcome.threw e w1) →
        w1.isWritten i = true ∧ w1._data[i]? = w._data[i]?) ∧
      (∀ (ops : List Op) (w1 : RomWriter), run w ops = some w1 →
        w1.isWritten i = true ∧ w1._data[i]? = w._data[i]?) :=
  ⟨fun op w1 h => frozen_step w i hi op w1 h, fun ops w1 h => frozen_run ops w i hi w1 h⟩

/-- Byte 2 of the buffer of Scenario A after its first write. -/
theorem written_bytes_frozen_witness :
    (∀ (op : Op) (w1 : RomWriter),
        (op.apply ⟨[0, 0, 1, 2, 0, 0, 0, 0], [0, 0, 1, 1, 0, 0, 0, 0]⟩ = Outcome.returned w1 ∨
          ∃ e, op.apply ⟨[0, 0, 1, 2, 0, 0, 0, 0], [0, 0, 1, 1, 0, 0, 0, 0]⟩
            = Outcome.threw e w1) →
        w1.isWritten 2 = true ∧
          w1._data[2]? = (RomWriter.mk [0, 0, 1, 2, 0, 0, 0, 0] [0, 0, 1, 1, 0, 0, 0, 0])._data[2]?) ∧
      (∀ (ops : List Op) (w1 : RomWriter),
        run ⟨[0, 0, 1, 2, 0, 0, 0, 0], [0, 0, 1, 1, 0, 0, 0, 0]⟩ ops = some w1 →
        w1.isWritten 2 = true ∧
          w1._data[2]? = (RomWriter.mk [0, 0, 1, 2, 0, 0, 0, 0] [0, 0, 1, 1, 0, 0, 0, 0])._data[2]?) :=
  written_bytes_frozen ⟨[0, 0, 1, 2, 0, 0, 0, 0], [0, 0, 1, 1, 0, 0, 0, 0]⟩ 2 (by decide)

/-! ## Counting the marked entries -/

theorem countP_memset_free (n : Nat) : ∀ (dst : List Nat) (offset : Nat),
    (∀ k, k < n → dst[offset + k]? = some 0) →
    (memset dst offset 1 n).countP (fun m => m != 0) = dst.countP (fun m => m != 0) + n := by
  induction n with
  | zero => intro dst offset _; rfl
  | succ n ih =>
    intro dst offset h
    have h0 := h 0 (by omega)
    rw [Nat.add_zero, List.getElem?_eq_some] at h0
    obtain ⟨hlt, hz⟩ := h0
    have hrest : ∀ k, k < n → (dst.set offset 1)[offset + 1 + k]? = some 0 := by
      intro k hk
      rw [List.getElem?_set_ne (by omega)]
      have := h (k + 1) (by omega)
      rw [← this]; congr 1; omega
    unfold memset
    rw [ih (dst.set offset 1) (offset + 1) hrest, List.countP_set _ _ _ _ hlt, hz]
    simp
    omega

theorem writtenCount_new (n : Nat) : (RomWriter.new n).writtenCount = 0 := by
  unfold RomWriter.writtenCount RomWriter.new
  rw [List.countP_replicate]
  simp

theorem writtenCount_after_write (w : RomWriter) (offset : Nat) (bytes : List Nat)
    (w1 : RomWriter) (h : WriteBytes w offset bytes = Outcome.returned w1) :
    w1.writtenCount = w.writtenCount + bytes.length := by
  obtain ⟨hp, rfl⟩ := WriteBytes_returned_inv w offset bytes w1 h
  unfold RomWriter.writtenCount
  exact countP_memset_free _ _ _ ((CheckWrite_passed_iff w offset bytes.length).1 hp).2

/-- C10: a successful write raises the number of marked mask entries by the
number of bytes written and unmarks none; so two successive successful writes
on a fresh buffer leave exactly `len b1 + len b2` entries marked. -/
theorem WriteBytes_writtenCount (w : RomWriter) (offset : Nat) (bytes : List Nat)
    (w1 : RomWriter) (h : WriteBytes w offset bytes = Outcome.returned w1) :
    w1.writtenCount = w.writtenCount + bytes.length ∧
      (∀ j, w.isWritten j = true → w1.isWritten j = true) ∧
      (∀ j, w1.isWritten j = true → w.isWritten j = false →
        offset ≤ j ∧ j < offset + bytes.length) ∧
      (∀ (n o2 : Nat) (b2 : List Nat) (w2 : RomWriter), w = RomWriter.new n →
        WriteBytes w1 o2 b2 = Outcome.returned w2 →
        w2.writtenCount = bytes.length + b2.length) := by
  refine ⟨writtenCount_after_write w offset bytes w1 h, ?_, ?_, ?_⟩
  · intro j hj
    exact (frozen_step w j hj (Op.writeBytes offset bytes) w1 (Or.inl h)).1
  · intro j hj1 hj0
    obtain ⟨_, rfl⟩ := WriteBytes_returned_inv w offset bytes w1 h
    by_contra hr
    unfold RomWriter.isWritten at hj1 hj0
    simp only [] at hj1
    rw [getElem?_memset, if_neg (by omega)] at hj1
    rw [hj1] at hj0
    cases hj0
  · intro n o2 b2 w2 hn h2
    rw [writtenCount_after_write w1 o2 b2 w2 h2, writtenCount_after_write w offset bytes w1 h,
      hn, writtenCount_new]
    omega

/-- Scenario A, first write, counted: two entries marked out of none. -/
theorem WriteBytes_writtenCount_witness :
    (RomWriter.mk [0, 0, 1, 2, 0, 0, 0, 0] [0, 0, 1, 1, 0, 0, 0, 0]).writtenCount
        = (RomWriter.new 8).writtenCount + [1, 2].length ∧
      (∀ j, (RomWriter.new 8).isWritten j = true →
        (RomWriter.mk [0, 0, 1, 2, 0, 0, 0, 0] [0, 0, 1, 1, 0, 0, 0, 0]).isWritten j = true) ∧
      (∀ j, (RomWriter.mk [0, 0, 1, 2, 0, 0, 0, 0] [0, 0, 1, 1, 0, 0, 0, 0]).isWritten j = true →
        (RomWriter.new 8).isWritten j = false → 2 ≤ j ∧ j < 2 + [1, 2].length) ∧
      (∀ (n o2 : Nat) (b2 : List Nat) (w2 : RomWriter), RomWriter.new 8 = RomWriter.new n →
        WriteBytes ⟨[0, 0, 1, 2, 0, 0, 0, 0], [0, 0, 1, 1, 0, 0, 0, 0]⟩ o2 b2
          = Outcome.returned w2 →
        w2.writtenCount = [1, 2].length + b2.length) :=
  WriteBytes_writtenCount (RomWriter.new 8) 2 [1, 2]
    ⟨[0, 0, 1, 2, 0, 0, 0, 0], [0, 0, 1, 1, 0, 0, 0, 0]⟩ (by decide)

/-! ## Frame, lengths and construction -/

/-- C11: a successful `WriteBytes` leaves the data byte and the mask entry of
every index outside its target range as they were. -/
theorem WriteBytes_frame (w : RomWriter) (offset : Nat) (bytes : List Nat) (w1 : RomWriter)
    (h : WriteBytes w offset bytes = Outcome.returned w1) (j : Nat)
    (hj : ¬ (offset ≤ j ∧ j < offset + bytes.length)) :
    w1._data[j]? = w._data[j]? ∧ w1._writtenBytes[j]? = w._writtenBytes[j]? := by
  obtain ⟨_, rfl⟩ := WriteBytes_returned_inv w offset bytes w1 h
  constructor
  · simp only []
    rw [getElem?_memcpy, if_neg (by omega)]
  · simp only []
    rw [getElem?_memset, if_neg (by omega)]

/-- Scenario A, first write, seen at index 5, which is outside `[2, 4)`. -/
theorem WriteBytes_frame_witness :
    (RomWriter.mk [0, 0, 1, 2, 0, 0, 0, 0] [0, 0, 1, 1, 0, 0, 0, 0])._data[5]?
        = (RomWriter.new 8)._data[5]? ∧
      (RomWriter.mk [0, 0, 1, 2, 0, 0, 0, 0] [0, 0, 1, 1, 0, 0, 0, 0])._writtenBytes[5]?
        = (RomWriter.new 8)._writtenBytes[5]? :=
  WriteBytes_frame (RomWriter.new 8) 2 [1, 2] ⟨[0, 0, 1, 2, 0, 0, 0, 0], [0, 0, 1, 1, 0, 0, 0, 0]⟩
    (by decide) 5 (by decide)

theorem lengths_step (w : RomWriter) (op : Op) (w1 : RomWriter)
    (h : op.apply w = Outcome.returned w1 ∨ ∃ e, op.apply w = Outcome.threw e w1) :
    w1._data.length = w._data.length ∧ w1._writtenBytes.length = w._writtenBytes.length := by
  cases op with
  | writeBytes offset bytes =>
    rcases h with h | ⟨e, h⟩
    · obtain ⟨_, rfl⟩ := WriteBytes_returned_inv w offset bytes w1 h
      exact ⟨length_memcpy _ _ _, length_memset _ _ _ _⟩
    · rw [WriteBytes_threw_inv w offset bytes e w1 h]
      exact ⟨rfl, rfl⟩
  | writeFromFile offset file =>
    rcases h with h | ⟨e, h⟩
    · obtain ⟨f, _, _, rfl⟩ := WriteFromFile_returned_inv w offset file w1 h
      exact ⟨length_memcpy _ _ _, rfl⟩
    · rw [WriteFromFile_threw_inv w offset file e w1 h]
      exact ⟨rfl, rfl⟩

theorem lengths_run (ops : List Op) : ∀ (w w1 : RomWriter), run w ops = some w1 →
    w1._data.length = w._data.length ∧ w1._writtenBytes.length = w._writtenBytes.length := by
  induction ops with
  | nil =>
    intro w w1 h
    unfold run at h
    cases h
    exact ⟨rfl, rfl⟩
  | cons op ops ih =>
    intro w w1 h
    unfold run at h
    cases ho : op.apply w with
    | returned w2 =>
      rw [ho] at h
      obtain ⟨d2, m2⟩ := lengths_step w op w2 (Or.inl ho)
      obtain ⟨d3, m3⟩ := ih w2 w1 h
      exact ⟨d3.trans d2, m3.trans m2⟩
    | threw e w2 =>
      rw [ho] at h
      obtain ⟨d2, m2⟩ := lengths_step w op w2 (Or.inr ⟨e, ho⟩)
      obtain ⟨d3, m3⟩ := ih w2 w1 h
      exact ⟨d3.trans d2, m3.trans m2⟩
    | exited code => rw [ho] at h; cases h
    | undefined => rw [ho] at h; cases h

/-- C12: after every sequence of `WriteBytes` and `WriteFromFile` calls on a
buffer constructed with size `n`, returning or throwing, the data and the mask
both have length `n` and `size()` is `n`. -/
theorem lengths_invariant (n : Nat) (ops : List Op) (w1 : RomWriter)
    (h : run (RomWriter.new n) ops = some w1) :
    w1._data.length = n ∧ w1._writtenBytes.length = n ∧ w1.size = n := by
  obtain ⟨hd, hm⟩ := lengths_run ops (RomWriter.new n) w1 h
  have hd0 : (RomWriter.new n)._data.length = n := by
    unfold RomWriter.new; exact List.length_replicate _ _
  have hm0 : (RomWriter.new n)._writtenBytes.length = n := by
    unfold RomWriter.new; exact List.length_replicate _ _
  exact ⟨hd.trans hd0, hm.trans hm0, hd.trans hd0⟩

/-- Scenarios A and B in a row on a fresh 8-byte buffer: a write that returns, one
that throws "double-write" and one that throws "write past end of ROM". -/
theorem lengths_invariant_witness :
    (RomWriter.mk [0, 0, 1, 2, 0, 0, 0, 0] [0, 0, 1, 1, 0, 0, 0, 0])._data.length = 8 ∧
      (RomWriter.mk [0, 0, 1, 2, 0, 0, 0, 0] [0, 0, 1, 1, 0, 0, 0, 0])._writtenBytes.length = 8 ∧
      (RomWriter.mk [0, 0, 1, 2, 0, 0, 0, 0] [0, 0, 1, 1, 0, 0, 0, 0]).size = 8 :=
  lengths_invariant 8
    [Op.writeBytes 2 [1, 2], Op.writeBytes 3 [9], Op.writeFromFile 6 (some (regularFile [1, 2, 3, 4, 5]))]
    ⟨[0, 0, 1, 2, 0, 0, 0, 0], [0, 0, 1, 1, 0, 0, 0, 0]⟩ (by decide)

/-- C13: `RomWriter(n)` has `size()` equal to `n`, a data array of `n` bytes that
are all 0x00 and a mask of `n` entries that are all 0. -/
theorem RomWriter_new_zeroed (n : Nat) :
    (RomWriter.new n).size = n ∧
      (RomWriter.new n)._data.length = n ∧
      (∀ i, i < n → (RomWriter.new n)._data[i]? = some 0x00) ∧
      (RomWriter.new n)._writtenBytes.length = n ∧
      (∀ i, i < n → (RomWriter.new n)._writtenBytes[i]? = some 0) ∧
      (∀ i, (RomWriter.new n).isWritten i = false) := by
  have hd : (RomWriter.new n)._data = List.replicate n 0 := rfl
  have hm : (RomWriter.new n)._writtenBytes = List.replicate n 0 := rfl
  refine ⟨?_, ?_, ?_, ?_, ?_, ?_⟩
  · unfold RomWriter.size; rw [hd]; exact List.length_replicate _ _
  · rw [hd]; exact List.length_replicate _ _
  · intro i hi; rw [hd]; exact List.getElem?_replicate_of_lt hi
  · rw [hm]; exact List.length_replicate _ _
  · intro i hi; rw [hm]; exact List.getElem?_replicate_of_lt hi
  · intro i
    unfold RomWriter.isWritten
    rw [hm, List.getElem?_replicate]
    split <;> simp_all

/-- The buffer of 10 bytes of Scenario B, at its index 7. -/
theorem RomWriter_new_zeroed_witness :
    (RomWriter.new 10).size = 10 ∧ (RomWriter.new 10)._data[7]? = some 0x00 ∧
      (RomWriter.new 10)._writtenBytes[7]? = some 0 :=
  ⟨(RomWriter_new_zeroed 10).1, (RomWriter_new_zeroed 10).2.2.1 7 (by decide),
    (RomWriter_new_zeroed 10).2.2.2.2.1 7 (by decide)⟩

/-! ## A file that cannot be opened -/

/-- C14, as stated, fails: with a file that cannot be opened, `WriteFromFile` on
a fresh 8-byte buffer hands its caller neither a return nor an error to catch;
the process exits with status 1. -/
theorem WriteFromFile_open_failure_not_reported :
    WriteFromFile (RomWriter.new 8) 0 none = Outcome.exited 1 ∧
      (¬ ∃ e w1, WriteFromFile (RomWriter.new 8) 0 none = Outcome.threw e w1) ∧
      (¬ ∃ w1, WriteFromFile (RomWriter.new 8) 0 none = Outcome.returned w1) := by
  refine ⟨rfl, ?_, ?_⟩
  · rintro ⟨e, w1, h⟩; cases h
  · rintro ⟨w1, h⟩; cases h

/-- C14, amended: with a file that cannot be opened, `WriteFromFile` ends the
process with exit status 1 for every buffer and offset, before `CheckWrite`
and before any byte is copied; no `RomWriteError` is thrown, and in `main` the
exit happens after the first write has returned, past the `catch`. -/
theorem WriteFromFile_open_failure_exits (w : RomWriter) (offset : Nat) :
    WriteFromFile w offset none = Outcome.exited 1 ∧
      (∀ e w1, WriteFromFile w offset none ≠ Outcome.threw e w1) ∧
      main none = Outcome.exited 1 := by
  refine ⟨rfl, ?_, ?_⟩
  · intro e w1 h; cases h
  · obtain ⟨w1, _, e1, _⟩ :=
      assemble_fresh 524288 (by unfold SIZE_T; omega) [0x00, 0x40, 0x00, 0x2a] 0x4 0x2a
        (regularFile []) (by simp)
        (by rw [fileSize_regularFile [] (by unfold SIZE_T; simp)]; simp)
    rw [andThen_main none w1 e1]
    rfl

/-! ## Order of the two checks, and the empty write -/

/-- C15: when `offset + numBytes` exceeds the size, without wrapping around,
`CheckWrite` throws "write past end of ROM" with the size, the offset and the
length, even if an index from `offset` on is marked written; the error is not
"double-write", and the result is the same whatever the mask holds. -/
theorem CheckWrite_bounds_first (w : RomWriter) (offset numBytes : Nat)
    (hs : offset + numBytes < SIZE_T) (hb : offset + numBytes > w.size)
    (_hm : ∃ i, offset ≤ i ∧ i < w.size ∧ w.isWritten i = true) :
    CheckWrite w offset numBytes = CheckResult.threw
        (RomWriteError.mk "write past end of ROM" w.size offset numBytes) ∧
      (∀ e, CheckWrite w offset numBytes = CheckResult.threw e → e.errorName ≠ "double-write") ∧
      (∀ mask : List Nat, CheckWrite ⟨w._data, mask⟩ offset numBytes
        = CheckWrite w offset numBytes) := by
  have hgt : (offset + numBytes) % SIZE_T > w.size := by
    rw [Nat.mod_eq_of_lt hs]; exact hb
  have e1 : CheckWrite w offset numBytes = CheckResult.threw
      (RomWriteError.mk "write past end of ROM" w.size offset numBytes) := by
    unfold CheckWrite; rw [if_pos hgt]
  refine ⟨e1, ?_, ?_⟩
  · intro e he
    rw [e1] at he
    injection he with he
    rw [← he]
    show "write past end of ROM" ≠ "double-write"
    decide
  · intro mask
    rw [e1]
    unfold CheckWrite
    have hsz : (RomWriter.mk w._data mask).size = w.size := rfl
    rw [hsz, if_pos hgt]

/-- The buffer of Scenario A after its first write, asked for 10 bytes at 2;
byte 3 is marked. -/
theorem CheckWrite_bounds_first_witness :
    CheckWrite ⟨[0, 0, 1, 2, 0, 0, 0, 0], [0, 0, 1, 1, 0, 0, 0, 0]⟩ 2 10 = CheckResult.threw
        (RomWriteError.mk "write past end of ROM"
          (RomWriter.mk [0, 0, 1, 2, 0, 0, 0, 0] [0, 0, 1, 1, 0, 0, 0, 0]).size 2 10) ∧
      (∀ e, CheckWrite ⟨[0, 0, 1, 2, 0, 0, 0, 0], [0, 0, 1, 1, 0, 0, 0, 0]⟩ 2 10
        = CheckResult.threw e → e.errorName ≠ "double-write") ∧
      (∀ mask : List Nat, CheckWrite ⟨[0, 0, 1, 2, 0, 0, 0, 0], mask⟩ 2 10
        = CheckWrite ⟨[0, 0, 1, 2, 0, 0, 0, 0], [0, 0, 1, 1, 0, 0, 0, 0]⟩ 2 10) :=
  CheckWrite_bounds_first ⟨[0, 0, 1, 2, 0, 0, 0, 0], [0, 0, 1, 1, 0, 0, 0, 0]⟩ 2 10
    (by decide) (by decide) ⟨3, by decide, by decide, by decide⟩

/-- C16: a write of no bytes at an offset up to the size returns and leaves the
object as it is, also at `offset = size` and on a byte already marked; at an
offset beyond the size it throws "write past end of ROM". -/
theorem WriteBytes_empty (w : RomWriter) (offset : Nat) (ho : offset < SIZE_T) :
    (offset ≤ w.size → WriteBytes w offset [] = Outcome.returned w) ∧
      (w.size < offset → WriteBytes w offset [] =
        Outcome.threw (RomWriteError.mk "write past end of ROM" w.size offset 0) w) := by
  have hmod : (offset + ([] : List Nat).length) % SIZE_T = offset := by
    rw [List.length_nil, Nat.add_zero, Nat.mod_eq_of_lt ho]
  constructor
  · intro hle
    have hb : ¬ ((offset + ([] : List Nat).length) % SIZE_T > w.size) := by
      rw [hmod]; omega
    unfold WriteBytes CheckWrite
    rw [if_neg hb]
    rfl
  · intro hgt
    have hb : (offset + ([] : List Nat).length) % SIZE_T > w.size := by
      rw [hmod]; exact hgt
    unfold WriteBytes CheckWrite
    rw [if_pos hb]
    rfl

/-- The buffer of Scenario A after its first write: the empty write at the
marked byte 3 and at the end, 8, returns; at 9 it throws. -/
theorem WriteBytes_empty_witness :
    WriteBytes ⟨[0, 0, 1, 2, 0, 0, 0, 0], [0, 0, 1, 1, 0, 0, 0, 0]⟩ 3 [] =
        Outcome.returned ⟨[0, 0, 1, 2, 0, 0, 0, 0], [0, 0, 1, 1, 0, 0, 0, 0]⟩ ∧
      WriteBytes ⟨[0, 0, 1, 2, 0, 0, 0, 0], [0, 0, 1, 1, 0, 0, 0, 0]⟩ 8 [] =
        Outcome.returned ⟨[0, 0, 1, 2, 0, 0, 0, 0], [0, 0, 1, 1, 0, 0, 0, 0]⟩ ∧
      WriteBytes ⟨[0, 0, 1, 2, 0, 0, 0, 0], [0, 0, 1, 1, 0, 0, 0, 0]⟩ 9 [] =
        Outcome.threw (RomWriteError.mk "write past end of ROM"
          (RomWriter.mk [0, 0, 1, 2, 0, 0, 0, 0] [0, 0, 1, 1, 0, 0, 0, 0]).size 9 0)
          ⟨[0, 0, 1, 2, 0, 0, 0, 0], [0, 0, 1, 1, 0, 0, 0, 0]⟩ :=
  ⟨(WriteBytes_empty ⟨[0, 0, 1, 2, 0, 0, 0, 0], [0, 0, 1, 1, 0, 0, 0, 0]⟩ 3 (by decide)).1
      (by decide),
    (WriteBytes_empty ⟨[0, 0, 1, 2, 0, 0, 0, 0], [0, 0, 1, 1, 0, 0, 0, 0]⟩ 8 (by decide)).1
      (by decide),
    (WriteBytes_empty ⟨[0, 0, 1, 2, 0, 0, 0, 0], [0, 0, 1, 1, 0, 0, 0, 0]⟩ 9 (by decide)).2
      (by decide)⟩

/-! ## The bit reversal of RomMain.cpp -/

set_option maxRecDepth 100000 in
theorem ReverseBits_all_bytes : ∀ b, b < 256 →
    (∀ i, i < 8 → (ReverseBits b).testBit i = b.testBit (7 - i)) ∧
      ReverseBits (ReverseBits b) = b ∧ ReverseBits b < 256 := by
  decide

/-- C17: for every 8-bit value `b`, bit `i` of `ReverseBits b` is bit `7 - i` of
`b` for each `i` in 0..7, so `ReverseBits (ReverseBits b) = b`; the result is
again an 8-bit value. -/
theorem ReverseBits_reverses (b : Nat) (hb : b < 256) :
    (∀ i, i < 8 → (ReverseBits b).testBit i = b.testBit (7 - i)) ∧
      ReverseBits (ReverseBits b) = b ∧ ReverseBits b < 256 :=
  ReverseBits_all_bytes b hb

/-- The byte 0xB1 = 10110001 reverses to 0x8D = 10001101. -/
theorem ReverseBits_reverses_witness :
    ReverseBits 0xB1 = 0x8D ∧
      (∀ i, i < 8 → (ReverseBits 0xB1).testBit i = (0xB1).testBit (7 - i)) ∧
      ReverseBits (ReverseBits 0xB1) = 0xB1 ∧ ReverseBits 0xB1 < 256 :=
  ⟨by decide, ReverseBits_reverses 0xB1 (by decide)⟩

/-! ## The error message -/

theorem digitChar_eq_hexDigits : ∀ d, d < 16 → Nat.digitChar d = hexDigits.getD d '?' := by
  decide

theorem toDigitsCore_16 : ∀ (fuel n : Nat) (ds : List Char), 0 < n → n < fuel →
    Nat.toDigitsCore 16 fuel n ds =
      ((Nat.digits 16 n).reverse).map (fun d => hexDigits.getD d '?') ++ ds := by
  intro fuel
  induction fuel with
  | zero => intro n ds _ h; omega
  | succ fuel ih =>
    intro n ds hn hlt
    have hd : Nat.digits 16 n = (n % 16) :: Nat.digits 16 (n / 16) :=
      Nat.digits_def' (by omega) hn
    have hc : Nat.digitChar (n % 16) = hexDigits.getD (n % 16) '?' :=
      digitChar_eq_hexDigits _ (Nat.mod_lt _ (by omega))
    unfold Nat.toDigitsCore
    simp only []
    by_cases h0 : n / 16 = 0
    · rw [if_pos h0, hd, h0, hc]
      simp
    · rw [if_neg h0, ih (n / 16) _ (by omega) (by omega), hd, hc]
      simp

theorem toDigits_16 (n : Nat) : String.mk (Nat.toDigits 16 n) = hexString n := by
  unfold hexString Nat.toDigits
  by_cases h0 : n = 0
  · subst h0; rfl
  · rw [if_neg h0, toDigitsCore_16 (n + 1) n [] (by omega) (by omega), List.append_nil]

/-- C18: the message of `RomWriteError(errorName, errorAt, writeStart, writeSize)`
is `errorName`, " at 0x", `errorAt` in hexadecimal, ", via 0x", `writeSize` in
hexadecimal, " byte write starting at 0x", `writeStart` in hexadecimal; the
failing write of Scenario A gives
"double-write at 0x3, via 0x1 byte write starting at 0x3". -/
theorem RomWriteError_what (errorName : String) (errorAt writeStart writeSize : Nat) :
    (RomWriteError.mk errorName errorAt writeStart writeSize).what =
        errorName ++ " at 0x" ++ hexString errorAt ++ ", via 0x" ++ hexString writeSize ++
          " byte write starting at 0x" ++ hexString writeStart ∧
      hexString 0 = "0" ∧
      ∃ e w1, WriteBytes ⟨[0, 0, 1, 2, 0, 0, 0, 0], [0, 0, 1, 1, 0, 0, 0, 0]⟩ 3 [9]
          = Outcome.threw e w1 ∧
        e.what = "double-write at 0x3, via 0x1 byte write starting at 0x3" := by
  refine ⟨?_, rfl, _, _, rfl, by decide⟩
  have hlit : " byte write" ++ " starting at 0x" = " byte write starting at 0x" := by decide
  unfold RomWriteError.what OStringStream.putSize OStringStream.putString OStringStream.hex
    OStringStream.new
  simp only [toDigits_16, String.append_assoc, String.empty_append]
  rw [← String.append_assoc " byte write", hlit]

end MakeMacRom
